import Mathlib

/-!
Verification of the procedural track generator and mesh synthesizer
(src/src/track_gen.rs and src/src/track_mesh.rs).

Floating-point scalars (f32/f64) are embedded as exact real numbers; the
third-party noise field (noise crate Perlin) is embedded as an abstract
pair of sampling functions, and the glam quaternion/vector operations are
embedded by their defining formulas.
-/

noncomputable section

set_option maxRecDepth 8000

namespace TrackCore

/-- Component-wise 3-vector over the reals, embedding glam Vec3. -/
structure Vec3 where
  x : ℝ
  y : ℝ
  z : ℝ

/-- Component-wise 2-vector over the reals, embedding glam Vec2. -/
structure Vec2 where
  x : ℝ
  y : ℝ

def Vec3.add (a b : Vec3) : Vec3 := ⟨a.x + b.x, a.y + b.y, a.z + b.z⟩

def Vec3.smul (c : ℝ) (a : Vec3) : Vec3 := ⟨c * a.x, c * a.y, c * a.z⟩

def Vec3.dot (a b : Vec3) : ℝ := a.x * b.x + a.y * b.y + a.z * b.z

def Vec3.cross (a b : Vec3) : Vec3 :=
  ⟨a.y * b.z - a.z * b.y, a.z * b.x - a.x * b.z, a.x * b.y - a.y * b.x⟩

def Vec3.zero : Vec3 := ⟨0, 0, 0⟩

/-- Vec3::Z of glam. -/
def Vec3.unitZ : Vec3 := ⟨0, 0, 1⟩

/-- Quaternion (x, y, z, w), embedding glam Quat. -/
structure Quat where
  x : ℝ
  y : ℝ
  z : ℝ
  w : ℝ

/-- Quat::IDENTITY. -/
def Quat.identity : Quat := ⟨0, 0, 0, 1⟩

/-- Hamilton product, embedding glam Quat multiplication. -/
def Quat.mul (a b : Quat) : Quat :=
  ⟨a.w * b.x + a.x * b.w + a.y * b.z - a.z * b.y,
   a.w * b.y + a.y * b.w + a.z * b.x - a.x * b.z,
   a.w * b.z + a.z * b.w + a.x * b.y - a.y * b.x,
   a.w * b.w - a.x * b.x - a.y * b.y - a.z * b.z⟩

def Quat.xyz (q : Quat) : Vec3 := ⟨q.x, q.y, q.z⟩

/-- Rotation of a vector by a quaternion, embedding glam Quat::mul_vec3:
for b the vector part, v * (w * w - b.dot b) + b * (2 * v.dot b) + (b.cross v) * (2 * w). -/
def Quat.mulVec3 (q : Quat) (v : Vec3) : Vec3 :=
  let b := q.xyz
  (Vec3.smul (q.w * q.w - b.dot b) v).add
    ((Vec3.smul (2 * (v.dot b)) b).add (Vec3.smul (2 * q.w) (b.cross v)))

/-- Quat::from_rotation_y(a) = (0, sin(a/2), 0, cos(a/2)). -/
def Quat.fromRotationY (a : ℝ) : Quat := ⟨0, Real.sin (a / 2), 0, Real.cos (a / 2)⟩

/-- rotate_point_around from src/src/track_gen.rs: translate to the center,
apply the 2x2 rotation matrix, translate back. -/
def rotate_point_around (point around : Vec2) (angle : ℝ) : Vec2 :=
  let x_translated := point.x - around.x
  let y_translated := point.y - around.y
  let cos_angle := Real.cos angle
  let sin_angle := Real.sin angle
  let x_rotated := x_translated * cos_angle - y_translated * sin_angle
  let y_rotated := x_translated * sin_angle + y_translated * cos_angle
  ⟨x_rotated + around.x, y_rotated + around.y⟩

/-- BlockType from src/src/track_gen.rs. That file declares Straight, Turn and
Slope; the BankedTurn and Bumpy variants, with exactly these fields, appear in
the patterns of generate_mesh_for_block in src/src/track_mesh.rs (which imports
this very enum), so the enum as consumed by the repository has all five. -/
inductive BlockType where
  | Straight (length : ℝ)
  | Turn (angle : ℝ) (radius : ℝ)
  | Slope (length : ℝ) (height_change : ℝ)
  | BankedTurn (angle : ℝ) (radius : ℝ) (bank_height : ℝ)
  | Bumpy (length : ℝ) (pertubation : ℝ)

def BlockType.isBumpy : BlockType → Bool
  | .Bumpy _ _ => true
  | _ => false

def BlockType.isBankedTurn : BlockType → Bool
  | .BankedTurn _ _ _ => true
  | _ => false

def BlockType.isSlope : BlockType → Bool
  | .Slope _ _ => true
  | _ => false

def BlockType.isTurn : BlockType → Bool
  | .Turn _ _ => true
  | _ => false

inductive RoadType where
  | Asphalt
  | Ice

/-- BallModifier; Duration is embedded as a natural number of seconds. -/
inductive BallModifier where
  | GravityChange (strength : ℝ) (duration : ℕ)
  | None

structure BlockTransform where
  position : Vec3
  rotation : Quat

structure TrackSegment where
  block_type : BlockType
  transform : BlockTransform
  road_type : RoadType
  modifier : BallModifier

/-- The Perlin noise field of the noise crate, embedded abstractly as a pair
of pure sampling functions (noise.get on [f64; 2] and on [f64; 3]). The spec
contract for it: deterministic, side-effect-free, values in [-1, 1]. -/
structure Noise where
  get2 : ℝ → ℝ → ℝ
  get3 : ℝ → ℝ → ℝ → ℝ

structure Track where
  segments : List TrackSegment
  current_end : BlockTransform
  noise : Noise

/-- Exit pose of a block placed with entry pose cur: the body of
Track::calculate_end_transform (src/src/track_gen.rs lines 210-243), with
self.current_end abstracted into the argument cur. The src file matches only
Straight, Turn and Slope; the BankedTurn and Bumpy arms are modelled from the
spec (section 4.3: BankedTurn chains exactly like Turn, Bumpy exactly like
Straight), since their code is not among the source files. Neither modelled
arm is ever reached by Track.generate, which only constructs the first three. -/
def endPose (cur : BlockTransform) (b : BlockType) : BlockTransform :=
  match b with
  | .Straight length =>
      ⟨cur.position.add (Vec3.smul length (cur.rotation.mulVec3 Vec3.unitZ)), cur.rotation⟩
  | .Turn angle radius =>
      let rotation := (Quat.fromRotationY angle).mul cur.rotation
      let position_offset := rotate_point_around ⟨0, 0⟩ ⟨radius, 0⟩ (-angle)
      ⟨cur.position.add (cur.rotation.mulVec3 ⟨position_offset.x, 0, position_offset.y⟩), rotation⟩
  | .Slope length height_change =>
      ⟨cur.position.add (cur.rotation.mulVec3 ⟨0, height_change, length⟩), cur.rotation⟩
  | .BankedTurn angle radius _ =>
      let rotation := (Quat.fromRotationY angle).mul cur.rotation
      let position_offset := rotate_point_around ⟨0, 0⟩ ⟨radius, 0⟩ (-angle)
      ⟨cur.position.add (cur.rotation.mulVec3 ⟨position_offset.x, 0, position_offset.y⟩), rotation⟩
  | .Bumpy length _ =>
      ⟨cur.position.add (Vec3.smul length (cur.rotation.mulVec3 Vec3.unitZ)), cur.rotation⟩

def Track.calculate_end_transform (t : Track) (b : BlockType) : BlockTransform :=
  endPose t.current_end b

/-- Track::turn_radius from src/src/track_gen.rs lines 184-195. -/
def Track.turn_radius (t : Track) : ℝ :=
  let r := |t.noise.get2 (t.current_end.position.y * 0.3) (t.current_end.position.x * 0.3)|
  r * 20 + 10

/-- Track::select_next_block from src/src/track_gen.rs lines 156-182. -/
def Track.select_next_block (t : Track) : BlockType :=
  let noise_value := t.noise.get2 ((t.segments.length : ℝ) * 0.3) 0
  if |noise_value| < 0.3 then
    .Straight 10
  else if |noise_value| < 0.6 then
    let r := |t.noise.get2 (t.current_end.position.x * 0.3) (t.current_end.position.y * 0.3)|
    .Turn (Real.pi * r + 0.3) t.turn_radius
  else
    .Slope 15
      (-(t.noise.get2 (t.current_end.position.y * 0.3) (t.current_end.position.x * 0.3) * 10 + 10))

/-- Track::append_block from src/src/track_gen.rs lines 197-208. -/
def Track.append_block (t : Track) (block_type : BlockType) (road_type : RoadType)
    (modifier : BallModifier) : Track :=
  let end_transform := t.calculate_end_transform block_type
  { segments := t.segments ++ [⟨block_type, t.current_end, road_type, modifier⟩]
    current_end := end_transform
    noise := t.noise }

/-- One iteration of the generation loop in Track::generate
(src/src/track_gen.rs lines 117-151). -/
def Track.genStep (t : Track) : Track :=
  let next_block := t.select_next_block
  let road_type : RoadType :=
    if |t.noise.get3 (t.current_end.position.x * 0.5) (t.current_end.position.y * 0.5)
        (t.current_end.position.z * 0.5)| < 0.1 then .Ice else .Asphalt
  let modifier : BallModifier :=
    if |t.noise.get3 (40 * Real.pi + t.current_end.position.x * 0.5)
        (40 * Real.pi + t.current_end.position.y * 0.5)
        (40 * Real.pi + t.current_end.position.z * 0.5)| > 0.9 then
      .GravityChange 4 10
    else
      .None
  t.append_block next_block road_type modifier

/-- Track::generate from src/src/track_gen.rs lines 98-154. Perlin::new(seed)
is third-party code; it is embedded as the abstract noise argument (a pure
function of the seed per the spec contract in section 4.1). -/
def Track.generate (noise : Noise) (initial_length : ℝ) : Track :=
  let track : Track :=
    { segments := []
      current_end := ⟨Vec3.zero, Quat.identity⟩
      noise := noise }
  let track := track.append_block (.Slope initial_length (-3)) .Asphalt .None
  Track.genStep^[500] track

end TrackCore

namespace TrackCore

/-- TRACK_WIDTH from src/src/track_mesh.rs. -/
def TRACK_WIDTH : ℝ := 10

/-- SEGMENTS_PER_RADIAN from src/src/track_mesh.rs. -/
def SEGMENTS_PER_RADIAN : ℕ := 10

/-- A bevy Mesh restricted to what the builders fill in: position, normal and
UV attribute arrays plus the triangle index list. -/
structure Mesh where
  positions : List Vec3
  normals : List Vec3
  uvs : List Vec2
  indices : List ℕ

/-- create_mesh_from_attributes from src/src/track_mesh.rs lines 478-492. -/
def create_mesh_from_attributes (positions : List Vec3) (indices : List ℕ)
    (uvs : List Vec2) (normals : List Vec3) : Mesh :=
  ⟨positions, normals, uvs, indices⟩

/-- generate_straight_mesh from src/src/track_mesh.rs lines 35-93. -/
def generate_straight_mesh (length : ℝ) : Mesh :=
  let half_width := TRACK_WIDTH / 2
  let vertices : List Vec3 :=
    [⟨-half_width, 0, 0⟩, ⟨half_width, 0, 0⟩, ⟨half_width, 0, length⟩, ⟨-half_width, 0, length⟩,
     ⟨-half_width, 3, 0⟩, ⟨half_width, 3, 0⟩, ⟨half_width, 3, length⟩, ⟨-half_width, 3, length⟩]
  let indices : List ℕ := [0, 2, 1, 0, 3, 2] ++ [0, 4, 7, 0, 7, 3, 1, 6, 5, 1, 2, 6]
  let uvs : List Vec2 :=
    [⟨0, 0⟩, ⟨1, 0⟩, ⟨1, 1⟩, ⟨0, 1⟩, ⟨0, 0⟩, ⟨1, 0⟩, ⟨1, 1⟩, ⟨0, 1⟩]
  let normals : List Vec3 :=
    [⟨0, 1, 0⟩, ⟨0, 1, 0⟩, ⟨0, 1, 0⟩, ⟨0, 1, 0⟩, ⟨1, 0, 0⟩, ⟨1, 0, 0⟩, ⟨-1, 0, 0⟩, ⟨-1, 0, 0⟩]
  create_mesh_from_attributes vertices indices uvs normals

/-- generate_slope_mesh from src/src/track_mesh.rs lines 415-475. -/
def generate_slope_mesh (length height_change : ℝ) : Mesh :=
  let half_width := TRACK_WIDTH / 2
  let vertices : List Vec3 :=
    [⟨-half_width, 0, 0⟩, ⟨half_width, 0, 0⟩, ⟨half_width, height_change, length⟩,
     ⟨-half_width, height_change, length⟩, ⟨-half_width, 3, 0⟩, ⟨half_width, 3, 0⟩,
     ⟨half_width, height_change + 3, length⟩, ⟨-half_width, height_change + 3, length⟩]
  let indices : List ℕ := [0, 2, 1, 0, 3, 2, 0, 4, 7, 0, 7, 3, 1, 6, 5, 1, 2, 6]
  let uvs : List Vec2 :=
    [⟨0, 0⟩, ⟨1, 0⟩, ⟨1, 1⟩, ⟨0, 1⟩, ⟨0, 0⟩, ⟨1, 0⟩, ⟨1, 1⟩, ⟨0, 1⟩]
  let dx := length
  let dy := height_change
  let normal_length := Real.sqrt (dx * dx + dy * dy)
  let normal : Vec3 := ⟨-dy / normal_length, dx / normal_length, 0⟩
  let normals : List Vec3 :=
    [normal, normal, normal, normal, ⟨1, 0, 0⟩, ⟨1, 0, 0⟩, ⟨-1, 0, 0⟩, ⟨-1, 0, 0⟩]
  create_mesh_from_attributes vertices indices uvs normals

/-- Number of arc subdivisions of a turn: (angle.abs() * SEGMENTS_PER_RADIAN).ceil()
saturated to a natural number, then .max(1). -/
def turnSegments (angle : ℝ) : ℕ :=
  (Int.toNat ⌈|angle| * (SEGMENTS_PER_RADIAN : ℝ)⌉).max 1

/-- The four vertices pushed per arc step i of generate_turn_mesh
(inner floor, inner ceiling, outer floor, outer ceiling). -/
def turnRingVerts (angle radius : ℝ) (K i : ℕ) : List Vec3 :=
  let segment_angle := (i : ℝ) / (K : ℝ) * angle
  let inner := rotate_point_around ⟨-(TRACK_WIDTH / 2), 0⟩ ⟨radius, 0⟩ (-segment_angle)
  let outer := rotate_point_around ⟨TRACK_WIDTH / 2, 0⟩ ⟨radius, 0⟩ (-segment_angle)
  [⟨inner.x, 0, inner.y⟩, ⟨inner.x, 3, inner.y⟩, ⟨outer.x, 0, outer.y⟩, ⟨outer.x, 3, outer.y⟩]

/-- The four UVs pushed per arc step i of generate_turn_mesh. -/
def turnRingUvs (K i : ℕ) : List Vec2 :=
  [⟨(i : ℝ) / (K : ℝ), 0⟩, ⟨(i : ℝ) / (K : ℝ), 0⟩, ⟨(i : ℝ) / (K : ℝ), 1⟩, ⟨(i : ℝ) / (K : ℝ), 1⟩]

/-- The four normals pushed per arc step of generate_turn_mesh. -/
def turnRingNormals : List Vec3 := [⟨0, 1, 0⟩, ⟨1, 0, 0⟩, ⟨0, 1, 0⟩, ⟨-1, 0, 0⟩]

/-- The 18 indices pushed per arc step i < K of generate_turn_mesh
(floor quad, inner wall quad, outer wall quad). -/
def turnQuadIndices (i : ℕ) : List ℕ :=
  let b := i * 4
  [b, b + 4, b + 2, b + 2, b + 4, b + 6,
   b, b + 1, b + 4, b + 1, b + 5, b + 4,
   b + 2, b + 6, b + 3, b + 3, b + 6, b + 7]

/-- generate_turn_mesh from src/src/track_mesh.rs lines 236-304. -/
def generate_turn_mesh (angle radius : ℝ) : Mesh :=
  let segments := turnSegments angle
  let vertices := (List.range (segments + 1)).flatMap (turnRingVerts angle radius segments)
  let uvs := (List.range (segments + 1)).flatMap (turnRingUvs segments)
  let normals := (List.range (segments + 1)).flatMap (fun _ => turnRingNormals)
  let indices := (List.range segments).flatMap turnQuadIndices
  create_mesh_from_attributes vertices indices uvs normals

/-- zero_peak from src/src/track_mesh.rs lines 393-412. -/
def zero_peak (x : ℝ) : ℝ :=
  let exponent_term := x ^ 2 * 5
  let exp_value := Real.exp exponent_term
  let denominator := 1 + exp_value
  let fraction := 1 / denominator
  fraction * 2

/-- sigmoid_peak from src/src/track_mesh.rs lines 378-391. -/
def sigmoid_peak (i max : ℕ) : ℝ :=
  if i = 0 then 0
  else if i = max then 0
  else
    let max_f32 := (max : ℝ)
    let half_max := max_f32 / 2
    let i_f32 := (i : ℝ)
    zero_peak ((i_f32 - half_max) / half_max)

/-- The four vertices pushed per arc step i of generate_banked_turn_mesh:
the inner pair is lifted by sigmoid_peak i K * bank_height. -/
def bankedRingVerts (angle radius bank_height : ℝ) (K i : ℕ) : List Vec3 :=
  let segment_angle := (i : ℝ) / (K : ℝ) * angle
  let inner := rotate_point_around ⟨-(TRACK_WIDTH / 2), 0⟩ ⟨radius, 0⟩ (-segment_angle)
  let outer := rotate_point_around ⟨TRACK_WIDTH / 2, 0⟩ ⟨radius, 0⟩ (-segment_angle)
  let bank_offset := sigmoid_peak i K * bank_height
  [⟨inner.x, 0 + bank_offset, inner.y⟩, ⟨inner.x, 3 + bank_offset, inner.y⟩,
   ⟨outer.x, 0, outer.y⟩, ⟨outer.x, 3, outer.y⟩]

/-- generate_banked_turn_mesh from src/src/track_mesh.rs lines 307-376. -/
def generate_banked_turn_mesh (angle radius bank_height : ℝ) : Mesh :=
  let segments := turnSegments angle
  let vertices :=
    (List.range (segments + 1)).flatMap (bankedRingVerts angle radius bank_height segments)
  let uvs := (List.range (segments + 1)).flatMap (turnRingUvs segments)
  let normals := (List.range (segments + 1)).flatMap (fun _ => turnRingNormals)
  let indices := (List.range segments).flatMap turnQuadIndices
  create_mesh_from_attributes vertices indices uvs normals

end TrackCore

namespace TrackCore

/-- Grid vertex x coordinate of generate_bumpy_mesh. -/
def bumpyXPos (width : ℝ) (resolution_x x_idx : ℕ) : ℝ :=
  -(width / 2) + width * (x_idx : ℝ) / ((resolution_x - 1 : ℕ) : ℝ)

/-- Grid vertex z coordinate of generate_bumpy_mesh. -/
def bumpyZPos (length : ℝ) (resolution_z z_idx : ℕ) : ℝ :=
  length * (z_idx : ℝ) / ((resolution_z - 1 : ℕ) : ℝ)

/-- Height offset of a grid vertex of generate_bumpy_mesh: noise-displaced on
the interior, forced flat on the border. -/
def bumpyHeight (length width : ℝ) (resolution_x resolution_z : ℕ) (perturbations : ℝ)
    (noise : Noise) (offset : Vec3) (x_idx z_idx : ℕ) : ℝ :=
  if 0 < x_idx ∧ x_idx < resolution_x - 1 ∧ 0 < z_idx ∧ z_idx < resolution_z - 1 then
    noise.get2 (bumpyXPos width resolution_x x_idx / 6 + offset.x)
      (bumpyZPos length resolution_z z_idx / 6 + offset.y) * perturbations
  else 0

/-- The grid vertices of generate_bumpy_mesh, row by row (z outer, x inner). -/
def bumpyGridPositions (length width : ℝ) (resolution_x resolution_z : ℕ)
    (perturbations : ℝ) (noise : Noise) (offset : Vec3) : List Vec3 :=
  (List.range resolution_z).flatMap fun z_idx =>
    (List.range resolution_x).map fun x_idx =>
      ⟨bumpyXPos width resolution_x x_idx,
       bumpyHeight length width resolution_x resolution_z perturbations noise offset x_idx z_idx,
       bumpyZPos length resolution_z z_idx⟩

/-- The grid UVs of generate_bumpy_mesh. -/
def bumpyGridUvs (resolution_x resolution_z : ℕ) : List Vec2 :=
  (List.range resolution_z).flatMap fun z_idx =>
    (List.range resolution_x).map fun (x_idx : ℕ) =>
      ⟨(x_idx : ℝ) / ((resolution_x - 1 : ℕ) : ℝ), (z_idx : ℝ) / ((resolution_z - 1 : ℕ) : ℝ)⟩

/-- The six indices pushed per grid quad of generate_bumpy_mesh. -/
def bumpyQuadIndices (resolution_x z_idx x_idx : ℕ) : List ℕ :=
  let bottom_left := z_idx * resolution_x + x_idx
  let bottom_right := bottom_left + 1
  let top_left := (z_idx + 1) * resolution_x + x_idx
  let top_right := top_left + 1
  [bottom_left, top_left, bottom_right, bottom_right, top_left, top_right]

/-- The grid indices of generate_bumpy_mesh. -/
def bumpyGridIndices (resolution_x resolution_z : ℕ) : List ℕ :=
  (List.range (resolution_z - 1)).flatMap fun z_idx =>
    (List.range (resolution_x - 1)).flatMap fun x_idx =>
      bumpyQuadIndices resolution_x z_idx x_idx

/-- Triangles of an index list, three indices at a time, as bevy reads them. -/
def triangleTriples : List ℕ → List (ℕ × ℕ × ℕ)
  | a :: b :: c :: rest => (a, b, c) :: triangleTriples rest
  | _ => []

def Vec3.normalizeOrZero (v : Vec3) : Vec3 :=
  let n := Real.sqrt (v.dot v)
  if n = 0 then Vec3.zero else Vec3.smul (1 / n) v

/-- Face normal of one triangle of the index list, (b - a) x (c - a). -/
def faceNormal (positions : List Vec3) (t : ℕ × ℕ × ℕ) : Vec3 :=
  let a := positions.getD t.1 Vec3.zero
  let b := positions.getD t.2.1 Vec3.zero
  let c := positions.getD t.2.2 Vec3.zero
  (b.add (Vec3.smul (-1) a)).cross (c.add (Vec3.smul (-1) a))

/-- Mesh::compute_smooth_normals of bevy (third-party), modelled from its
documented behaviour: the normal attribute is replaced by one entry per
vertex, the normalized sum of the face normals of the triangles that use
that vertex. -/
def smoothNormals (positions : List Vec3) (indices : List ℕ) : List Vec3 :=
  (List.range positions.length).map fun i =>
    Vec3.normalizeOrZero
      (((triangleTriples indices).filter fun t => t.1 = i ∨ t.2.1 = i ∨ t.2.2 = i).foldl
        (fun acc t => acc.add (faceNormal positions t)) Vec3.zero)

/-- generate_bumpy_mesh from src/src/track_mesh.rs lines 94-233. The two
panicking asserts on the grid resolution are embedded as the Option guard.
The normal attribute as assembled by the function body has four more entries
than the position attribute (the grid normals plus four zero entries pushed
twice, lines 161-166 and 214-217); the final compute_smooth_normals call
(bevy, third-party) then replaces the whole normal attribute by smoothNormals,
one entry per vertex. -/
def generate_bumpy_mesh (length width : ℝ) (resolution_x resolution_z : ℕ)
    (perturbations : ℝ) (noise : Noise) (offset : Vec3) : Option Mesh :=
  if 2 ≤ resolution_x ∧ 2 ≤ resolution_z then
    let half_width := width / 2
    let positions :=
      bumpyGridPositions length width resolution_x resolution_z perturbations noise offset ++
        [⟨-half_width, 3, 0⟩, ⟨half_width, 3, 0⟩, ⟨half_width, 3, length⟩, ⟨-half_width, 3, length⟩]
    let uvs := bumpyGridUvs resolution_x resolution_z ++ [⟨0, 0⟩, ⟨1, 0⟩, ⟨1, 1⟩, ⟨0, 1⟩]
    let indices :=
      bumpyGridIndices resolution_x resolution_z ++
        [0, positions.length - 4, positions.length - 1,
         0, positions.length - 1, resolution_x * (resolution_z - 1),
         resolution_z * resolution_x - 1, positions.length - 2, positions.length - 3,
         resolution_x - 1, resolution_x * resolution_z - 1, positions.length - 3]
    some ⟨positions, smoothNormals positions indices, uvs, indices⟩
  else
    none

/-- generate_mesh_for_block from src/src/track_mesh.rs lines 14-32. The Bumpy
arm can panic (through the asserts of generate_bumpy_mesh), hence the Option
result; every other arm is total. -/
def generate_mesh_for_block (block : BlockType) (noise : Noise) (offset : Vec3) : Option Mesh :=
  match block with
  | .Straight length => some (generate_straight_mesh length)
  | .Turn angle radius => some (generate_turn_mesh angle radius)
  | .Slope length height_change => some (generate_slope_mesh length height_change)
  | .BankedTurn angle radius bank_height =>
      some (generate_banked_turn_mesh angle radius bank_height)
  | .Bumpy length pertubation =>
      generate_bumpy_mesh length TRACK_WIDTH 20 20 pertubation noise offset

end TrackCore

namespace TrackCore

/-- Interior continuity: every segment's exit pose is the next segment's entry pose. -/
def Chained (t : Track) : Prop :=
  ∀ i : ℕ, ∀ h : i + 1 < t.segments.length,
    endPose (t.segments.get ⟨i, Nat.lt_of_succ_lt h⟩).transform
        (t.segments.get ⟨i, Nat.lt_of_succ_lt h⟩).block_type
      = (t.segments.get ⟨i + 1, h⟩).transform

/-- Boundary continuity: the last segment's exit pose is the cursor. -/
def ChainedEnd (t : Track) : Prop :=
  ∀ h : t.segments ≠ [],
    endPose (t.segments.getLast h).transform (t.segments.getLast h).block_type = t.current_end

def WellChained (t : Track) : Prop := Chained t ∧ ChainedEnd t

theorem append_block_segments (t : Track) (b : BlockType) (rt : RoadType) (m : BallModifier) :
    (t.append_block b rt m).segments = t.segments ++ [⟨b, t.current_end, rt, m⟩] := rfl

theorem append_block_noise (t : Track) (b : BlockType) (rt : RoadType) (m : BallModifier) :
    (t.append_block b rt m).noise = t.noise := rfl

theorem append_block_current_end (t : Track) (b : BlockType) (rt : RoadType) (m : BallModifier) :
    (t.append_block b rt m).current_end = endPose t.current_end b := rfl

theorem append_block_length (t : Track) (b : BlockType) (rt : RoadType) (m : BallModifier) :
    (t.append_block b rt m).segments.length = t.segments.length + 1 := by
  simp [append_block_segments]

theorem wellChained_append (t : Track) (b : BlockType) (rt : RoadType) (m : BallModifier)
    (ht : WellChained t) : WellChained (t.append_block b rt m) := by
  obtain ⟨h1, h2⟩ := ht
  set x : TrackSegment := ⟨b, t.current_end, rt, m⟩ with hx
  constructor
  · intro i h
    have hlen : (t.append_block b rt m).segments.length = t.segments.length + 1 :=
      append_block_length t b rt m
    rw [append_block_length] at h
    by_cases hi : i + 1 < t.segments.length
    · have hget0 : (t.append_block b rt m).segments.get ⟨i, by
        rw [append_block_length]; omega⟩ = t.segments.get ⟨i, Nat.lt_of_succ_lt hi⟩ := by
        simp only [append_block_segments, List.get_eq_getElem]
        exact List.getElem_append_left (Nat.lt_of_succ_lt hi)
      have hget1 : (t.append_block b rt m).segments.get ⟨i + 1, by
        rw [append_block_length]; omega⟩ = t.segments.get ⟨i + 1, hi⟩ := by
        simp only [append_block_segments, List.get_eq_getElem]
        exact List.getElem_append_left hi
      simp only [List.get_eq_getElem] at hget0 hget1 ⊢
      rw [hget0, hget1]
      have := h1 i hi
      simpa [List.get_eq_getElem] using this
    · have hieq : i + 1 = t.segments.length := by omega
      have hne : t.segments ≠ [] := by
        intro hcon
        rw [hcon] at hieq
        simp at hieq
      have hget0 : (t.append_block b rt m).segments.get ⟨i, by
        rw [append_block_length]; omega⟩ = t.segments.getLast hne := by
        rw [List.getLast_eq_getElem]
        simp only [append_block_segments, List.get_eq_getElem]
        rw [List.getElem_append_left (by omega)]
        congr 1
        omega
      have hget1 : (t.append_block b rt m).segments.get ⟨i + 1, by
        rw [append_block_length]; omega⟩ = x := by
        simp only [append_block_segments, List.get_eq_getElem]
        rw [List.getElem_append_right (by omega)]
        simp [hieq]
      simp only [List.get_eq_getElem] at hget0 hget1 ⊢
      rw [hget0, hget1]
      rw [h2 hne]
  · intro h
    have : (t.append_block b rt m).segments.getLast h = x := by
      simp [append_block_segments]
    rw [this]
    rfl

theorem wellChained_genStep (t : Track) (ht : WellChained t) : WellChained t.genStep :=
  wellChained_append t _ _ _ ht

theorem wellChained_iterate (t : Track) (ht : WellChained t) :
    ∀ n : ℕ, WellChained (Track.genStep^[n] t) := by
  intro n
  induction n with
  | zero => simpa using ht
  | succ k ih =>
      rw [Function.iterate_succ_apply']
      exact wellChained_genStep _ ih

theorem wellChained_generate (noise : Noise) (initial_length : ℝ) :
    WellChained (Track.generate noise initial_length) := by
  unfold Track.generate
  apply wellChained_iterate
  apply wellChained_append
  constructor
  · intro i h
    simp at h
  · intro h
    simp at h

theorem genStep_length (t : Track) : t.genStep.segments.length = t.segments.length + 1 :=
  append_block_length t _ _ _

theorem genStep_noise (t : Track) : t.genStep.noise = t.noise := rfl

theorem iterate_genStep_length (t : Track) (n : ℕ) :
    (Track.genStep^[n] t).segments.length = t.segments.length + n := by
  induction n with
  | zero => simp
  | succ k ih =>
      rw [Function.iterate_succ_apply', genStep_length, ih]
      omega

theorem iterate_genStep_noise (t : Track) (n : ℕ) : (Track.genStep^[n] t).noise = t.noise := by
  induction n with
  | zero => simp
  | succ k ih => rw [Function.iterate_succ_apply', genStep_noise, ih]

theorem generate_length (noise : Noise) (initial_length : ℝ) :
    (Track.generate noise initial_length).segments.length = 501 := by
  unfold Track.generate
  rw [iterate_genStep_length, append_block_length]
  rfl

end TrackCore

namespace TrackCore

/-- A concrete noise field used to instantiate witnesses: constant zero. -/
def noiseZero : Noise := ⟨fun _ _ => 0, fun _ _ _ => 0⟩

theorem generate_noiseZero_one_lt : 1 < (Track.generate noiseZero 8).segments.length := by
  rw [generate_length]
  omega

/-- Claim C1: for every generated track (any noise field, hence any seed, and
any initial_length) and every index i, applying the exit-pose function to
segment i's block_type and entry transform yields exactly segment (i+1)'s
entry transform; exact equality over the reals, hence within any epsilon. -/
theorem c1_continuity (noise : Noise) (initial_length : ℝ) (i : ℕ)
    (h : i + 1 < (Track.generate noise initial_length).segments.length) :
    endPose
        ((Track.generate noise initial_length).segments.get ⟨i, Nat.lt_of_succ_lt h⟩).transform
        ((Track.generate noise initial_length).segments.get ⟨i, Nat.lt_of_succ_lt h⟩).block_type
      = ((Track.generate noise initial_length).segments.get ⟨i + 1, h⟩).transform :=
  (wellChained_generate noise initial_length).1 i h

/-- Witness for C1 at the concrete noise field noiseZero, initial_length 8, i = 0. -/
theorem c1_continuity_witness :
    1 < (Track.generate noiseZero 8).segments.length ∧
      endPose
          ((Track.generate noiseZero 8).segments.get
            ⟨0, Nat.lt_of_succ_lt generate_noiseZero_one_lt⟩).transform
          ((Track.generate noiseZero 8).segments.get
            ⟨0, Nat.lt_of_succ_lt generate_noiseZero_one_lt⟩).block_type
        = ((Track.generate noiseZero 8).segments.get ⟨1, generate_noiseZero_one_lt⟩).transform :=
  ⟨generate_noiseZero_one_lt, c1_continuity noiseZero 8 0 generate_noiseZero_one_lt⟩

/-- Claim C2: Track::generate is a pure function of the noise field (itself a
pure function of the seed) and the initial length: two generation calls whose
noise fields agree as functions produce identical tracks, segment sequences
included; the embedding has no other source of randomness, mirroring the code. -/
theorem c2_determinism (n1 n2 : Noise) (initial_length : ℝ)
    (h2 : n1.get2 = n2.get2) (h3 : n1.get3 = n2.get3) :
    Track.generate n1 initial_length = Track.generate n2 initial_length := by
  obtain ⟨f2, f3⟩ := n1
  obtain ⟨g2, g3⟩ := n2
  simp only at h2 h3
  subst h2
  subst h3
  rfl

/-- Witness for C2 at the concrete noise field noiseZero and initial_length 8. -/
theorem c2_determinism_witness :
    noiseZero.get2 = noiseZero.get2 ∧
      Track.generate noiseZero 8 = Track.generate noiseZero 8 :=
  ⟨rfl, c2_determinism noiseZero noiseZero 8 rfl rfl⟩

end TrackCore

namespace TrackCore

/-- A quaternion that is a pure rotation about the y axis. -/
def isYawQuat (q : Quat) : Prop := ∃ θ : ℝ, q = Quat.fromRotationY θ

theorem fromRotationY_mul (a θ : ℝ) :
    (Quat.fromRotationY a).mul (Quat.fromRotationY θ) = Quat.fromRotationY (a + θ) := by
  unfold Quat.fromRotationY Quat.mul
  have hs : Real.sin ((a + θ) / 2) = Real.sin (a / 2 + θ / 2) := by ring_nf
  have hc : Real.cos ((a + θ) / 2) = Real.cos (a / 2 + θ / 2) := by ring_nf
  simp only [Quat.mk.injEq, hs, hc, Real.sin_add, Real.cos_add]
  refine ⟨by ring, by ring, by ring, by ring⟩

theorem identity_fromRotationY : Quat.identity = Quat.fromRotationY 0 := by
  simp [Quat.identity, Quat.fromRotationY]

/-- Every stored rotation of the track, the cursor rotation included, is a pure yaw. -/
def YawOnly (t : Track) : Prop :=
  (∀ seg ∈ t.segments, isYawQuat seg.transform.rotation) ∧ isYawQuat t.current_end.rotation

theorem endPose_rotation_yaw (cur : BlockTransform) (b : BlockType)
    (h : isYawQuat cur.rotation) : isYawQuat (endPose cur b).rotation := by
  obtain ⟨θ, hθ⟩ := h
  cases b with
  | Straight length => exact ⟨θ, hθ⟩
  | Slope length height_change => exact ⟨θ, hθ⟩
  | Bumpy length pertubation => exact ⟨θ, hθ⟩
  | Turn angle radius =>
      refine ⟨angle + θ, ?_⟩
      show (Quat.fromRotationY angle).mul cur.rotation = _
      rw [hθ, fromRotationY_mul]
  | BankedTurn angle radius bank_height =>
      refine ⟨angle + θ, ?_⟩
      show (Quat.fromRotationY angle).mul cur.rotation = _
      rw [hθ, fromRotationY_mul]

theorem yawOnly_append (t : Track) (b : BlockType) (rt : RoadType) (m : BallModifier)
    (ht : YawOnly t) : YawOnly (t.append_block b rt m) := by
  obtain ⟨h1, h2⟩ := ht
  constructor
  · intro seg hseg
    rw [append_block_segments] at hseg
    rcases List.mem_append.mp hseg with hmem | hmem
    · exact h1 seg hmem
    · rw [List.mem_singleton] at hmem
      subst hmem
      exact h2
  · exact endPose_rotation_yaw t.current_end b h2

theorem yawOnly_iterate (t : Track) (ht : YawOnly t) (n : ℕ) :
    YawOnly (Track.genStep^[n] t) := by
  induction n with
  | zero => simpa using ht
  | succ k ih =>
      rw [Function.iterate_succ_apply']
      exact yawOnly_append _ _ _ _ ih

theorem yawOnly_generate (noise : Noise) (initial_length : ℝ) :
    YawOnly (Track.generate noise initial_length) := by
  unfold Track.generate
  apply yawOnly_iterate
  apply yawOnly_append
  constructor
  · intro seg hseg
    simp at hseg
  · exact ⟨0, identity_fromRotationY⟩

/-- Pitch component of the YXZ Euler decomposition, modelled from the glam
to_euler extraction (third-party): the pitch about the lateral x axis is
asin of the negated (row 2, column 3) rotation-matrix entry 2(y z - x w)
of the quaternion. For the pure-yaw quaternions below the entry is zero
under every sign convention, so the modelling choice is immaterial. -/
def pitchYXZ (q : Quat) : ℝ := Real.arcsin (-(2 * (q.y * q.z - q.x * q.w)))

theorem pitchYXZ_fromRotationY (θ : ℝ) : pitchYXZ (Quat.fromRotationY θ) = 0 := by
  simp [pitchYXZ, Quat.fromRotationY]

/-- Claim C9: in every generated track (any noise field, hence any seed
including 321, and any initial_length including 8.0), every segment entry
rotation is a pure yaw, so its pitch component in the YXZ Euler decomposition
is exactly 0, strictly within plus and minus 45 degrees. -/
theorem c9_bounded_pitch (noise : Noise) (initial_length : ℝ) (i : ℕ)
    (h : i < (Track.generate noise initial_length).segments.length) :
    |pitchYXZ
        (((Track.generate noise initial_length).segments.get ⟨i, h⟩).transform.rotation)|
      < Real.pi / 4 := by
  obtain ⟨θ, hθ⟩ :=
    (yawOnly_generate noise initial_length).1 _
      (List.get_mem (Track.generate noise initial_length).segments i h)
  rw [hθ, pitchYXZ_fromRotationY]
  rw [abs_zero]
  positivity

/-- Witness for C9 at the concrete noise field noiseZero, initial_length 8, i = 0. -/
theorem c9_bounded_pitch_witness :
    0 < (Track.generate noiseZero 8).segments.length ∧
      |pitchYXZ
          (((Track.generate noiseZero 8).segments.get
            ⟨0, Nat.lt_of_succ_lt generate_noiseZero_one_lt⟩).transform.rotation)|
        < Real.pi / 4 :=
  ⟨Nat.lt_of_succ_lt generate_noiseZero_one_lt,
   c9_bounded_pitch noiseZero 8 0 (Nat.lt_of_succ_lt generate_noiseZero_one_lt)⟩

end TrackCore

namespace TrackCore

theorem mulVec3_z_smul (R : Quat) (l : ℝ) :
    Vec3.smul l (R.mulVec3 Vec3.unitZ) = R.mulVec3 ⟨0, 0, l⟩ := by
  simp only [Quat.mulVec3, Vec3.smul, Vec3.add, Vec3.dot, Vec3.cross, Quat.xyz, Vec3.unitZ,
    Vec3.mk.injEq]
  refine ⟨by ring, by ring, by ring⟩

/-- Claim C6: exit-pose formulas of the three generated piece types, stated as
the spec writes them. Straight keeps the rotation and moves by the rotated
(0, 0, length); Slope keeps the rotation and moves by the rotated
(0, height_change, length); Turn pre-composes a y rotation by the angle and
moves by the rotated XZ offset rotate_point_around((0,0), (radius,0), -angle). -/
theorem c6_transform_chaining (P : Vec3) (R : Quat) :
    (∀ length : ℝ,
      endPose ⟨P, R⟩ (.Straight length) = ⟨P.add (R.mulVec3 ⟨0, 0, length⟩), R⟩) ∧
    (∀ length height_change : ℝ,
      endPose ⟨P, R⟩ (.Slope length height_change)
        = ⟨P.add (R.mulVec3 ⟨0, height_change, length⟩), R⟩) ∧
    (∀ angle radius : ℝ,
      endPose ⟨P, R⟩ (.Turn angle radius)
        = ⟨P.add (R.mulVec3
              ⟨(rotate_point_around ⟨0, 0⟩ ⟨radius, 0⟩ (-angle)).x, 0,
               (rotate_point_around ⟨0, 0⟩ ⟨radius, 0⟩ (-angle)).y⟩),
           (Quat.fromRotationY angle).mul R⟩) := by
  refine ⟨fun length => ?_, fun length height_change => rfl, fun angle radius => rfl⟩
  show (⟨P.add (Vec3.smul length (R.mulVec3 Vec3.unitZ)), R⟩ : BlockTransform) = _
  rw [mulVec3_z_smul]

end TrackCore

namespace TrackCore

theorem select_next_block_straight (t : Track)
    (h : |t.noise.get2 ((t.segments.length : ℝ) * 0.3) 0| < 0.3) :
    t.select_next_block = .Straight 10 := by
  unfold Track.select_next_block
  rw [if_pos h]

theorem select_next_block_turn (t : Track)
    (h1 : ¬ |t.noise.get2 ((t.segments.length : ℝ) * 0.3) 0| < 0.3)
    (h2 : |t.noise.get2 ((t.segments.length : ℝ) * 0.3) 0| < 0.6) :
    t.select_next_block =
      .Turn
        (Real.pi *
            |t.noise.get2 (t.current_end.position.x * 0.3) (t.current_end.position.y * 0.3)| +
          0.3)
        (|t.noise.get2 (t.current_end.position.y * 0.3) (t.current_end.position.x * 0.3)| * 20 +
          10) := by
  unfold Track.select_next_block Track.turn_radius
  rw [if_neg h1, if_pos h2]

theorem select_next_block_slope (t : Track)
    (h1 : ¬ |t.noise.get2 ((t.segments.length : ℝ) * 0.3) 0| < 0.3)
    (h2 : ¬ |t.noise.get2 ((t.segments.length : ℝ) * 0.3) 0| < 0.6) :
    t.select_next_block =
      .Slope 15
        (-(t.noise.get2 (t.current_end.position.y * 0.3) (t.current_end.position.x * 0.3) * 10 +
          10)) := by
  unfold Track.select_next_block
  rw [if_neg h1, if_neg h2]

theorem select_next_block_not_bumpy (t : Track) :
    (t.select_next_block).isBumpy = false ∧ (t.select_next_block).isBankedTurn = false := by
  by_cases h1 : |t.noise.get2 ((t.segments.length : ℝ) * 0.3) 0| < 0.3
  · rw [select_next_block_straight t h1]
    exact ⟨rfl, rfl⟩
  by_cases h2 : |t.noise.get2 ((t.segments.length : ℝ) * 0.3) 0| < 0.6
  · rw [select_next_block_turn t h1 h2]
    exact ⟨rfl, rfl⟩
  · rw [select_next_block_slope t h1 h2]
    exact ⟨rfl, rfl⟩

/-- No segment of the track is a Bumpy or a BankedTurn piece. -/
def NoBumpy (t : Track) : Prop :=
  ∀ seg ∈ t.segments, seg.block_type.isBumpy = false ∧ seg.block_type.isBankedTurn = false

theorem noBumpy_genStep (t : Track) (ht : NoBumpy t) : NoBumpy t.genStep := by
  intro seg hseg
  unfold Track.genStep at hseg
  rw [append_block_segments] at hseg
  rcases List.mem_append.mp hseg with hmem | hmem
  · exact ht seg hmem
  · rw [List.mem_singleton] at hmem
    subst hmem
    exact select_next_block_not_bumpy t

theorem noBumpy_iterate (t : Track) (ht : NoBumpy t) (n : ℕ) :
    NoBumpy (Track.genStep^[n] t) := by
  induction n with
  | zero => simpa using ht
  | succ k ih =>
      rw [Function.iterate_succ_apply']
      exact noBumpy_genStep _ ih

theorem noBumpy_generate (noise : Noise) (initial_length : ℝ) :
    NoBumpy (Track.generate noise initial_length) := by
  unfold Track.generate
  apply noBumpy_iterate
  intro seg hseg
  rw [append_block_segments] at hseg
  rcases List.mem_append.mp hseg with hmem | hmem
  · simp at hmem
  · rw [List.mem_singleton] at hmem
    subst hmem
    exact ⟨rfl, rfl⟩

/-- Counterexample for claim C4: no generated track, for any noise field (hence
for any seed) and any initial_length, ever contains a Bumpy or BankedTurn piece;
select_next_block partitions into three piece types only. -/
theorem c4_counterexample :
    ¬ ∃ (noise : Noise) (initial_length : ℝ),
        ∃ seg ∈ (Track.generate noise initial_length).segments,
          seg.block_type.isBumpy = true ∨ seg.block_type.isBankedTurn = true := by
  rintro ⟨noise, initial_length, seg, hseg, hcase⟩
  obtain ⟨hb, hbt⟩ := noBumpy_generate noise initial_length seg hseg
  rcases hcase with hcon | hcon
  · rw [hb] at hcon
    exact Bool.false_ne_true hcon
  · rw [hbt] at hcon
    exact Bool.false_ne_true hcon

/-- Claim C4 as amended: on every generation step the selector samples one
noise value keyed on the current segment index and partitions its absolute
value through the ordered thresholds 0.3 and 0.6 into one of the THREE piece
types Straight (length 10), Turn (angle pi * r + 0.3, radius from turn_radius)
and Slope (length 15); Bumpy and BankedTurn are never produced. -/
theorem c4_amended_selection (t : Track) :
    (|t.noise.get2 ((t.segments.length : ℝ) * 0.3) 0| < 0.3 →
        t.select_next_block = .Straight 10) ∧
    (0.3 ≤ |t.noise.get2 ((t.segments.length : ℝ) * 0.3) 0| →
      |t.noise.get2 ((t.segments.length : ℝ) * 0.3) 0| < 0.6 →
        t.select_next_block =
          .Turn
            (Real.pi *
                |t.noise.get2 (t.current_end.position.x * 0.3)
                  (t.current_end.position.y * 0.3)| + 0.3)
            (|t.noise.get2 (t.current_end.position.y * 0.3)
                (t.current_end.position.x * 0.3)| * 20 + 10)) ∧
    (0.6 ≤ |t.noise.get2 ((t.segments.length : ℝ) * 0.3) 0| →
        t.select_next_block =
          .Slope 15
            (-(t.noise.get2 (t.current_end.position.y * 0.3)
                (t.current_end.position.x * 0.3) * 10 + 10))) ∧
    ((t.select_next_block).isBumpy = false ∧ (t.select_next_block).isBankedTurn = false) :=
  ⟨fun h => select_next_block_straight t h,
   fun h1 h2 => select_next_block_turn t (not_lt.mpr h1) h2,
   fun h => select_next_block_slope t (not_lt.mpr (by linarith)) (not_lt.mpr h),
   select_next_block_not_bumpy t⟩

/-- Claim C5 as amended: the generator keeps no turn accumulator and never
force-selects a descent; piece selection reads only the noise field, the
current segment count and the cursor position, so two states agreeing on
those three select the same next block whatever was built before. -/
theorem c5_amended_no_accumulator (t1 t2 : Track) (hn : t1.noise = t2.noise)
    (hl : t1.segments.length = t2.segments.length)
    (hp : t1.current_end.position = t2.current_end.position) :
    t1.select_next_block = t2.select_next_block := by
  unfold Track.select_next_block Track.turn_radius
  rw [hn, hl, hp]

/-- Concrete generation states for the C5 witness: same noise, same segment
count, same cursor position, different cursor rotation and history. -/
def trackA : Track := ⟨[], ⟨Vec3.zero, Quat.identity⟩, noiseZero⟩

def trackB : Track := ⟨[], ⟨Vec3.zero, Quat.fromRotationY 1⟩, noiseZero⟩

/-- Witness for the amended C5 at the concrete states trackA and trackB. -/
theorem c5_amended_no_accumulator_witness :
    trackA.noise = trackB.noise ∧ trackA.select_next_block = trackB.select_next_block :=
  ⟨rfl, c5_amended_no_accumulator trackA trackB rfl rfl rfl⟩

end TrackCore

namespace TrackCore

/-- Constant noise field, a concrete instance of the abstract Perlin model. -/
def constNoise (c d : ℝ) : Noise := ⟨fun _ _ => c, fun _ _ _ => d⟩

theorem select_constNoise (t : Track) (c d : ℝ) (hn : t.noise = constNoise c d)
    (h1 : 0.3 ≤ |c|) (h2 : |c| < 0.6) :
    t.select_next_block = .Turn (Real.pi * |c| + 0.3) (|c| * 20 + 10) := by
  unfold Track.select_next_block Track.turn_radius
  rw [hn]
  show (if |c| < 0.3 then _ else if |c| < 0.6 then _ else _) = _
  rw [if_neg (not_lt.mpr h1), if_pos h2]
  rfl

theorem genStep_constNoise_map (t : Track) (c d : ℝ) (hn : t.noise = constNoise c d)
    (h1 : 0.3 ≤ |c|) (h2 : |c| < 0.6) :
    (t.genStep).segments.map (fun s => s.block_type)
      = t.segments.map (fun s => s.block_type)
          ++ [.Turn (Real.pi * |c| + 0.3) (|c| * 20 + 10)] := by
  show ((t.append_block t.select_next_block _ _).segments.map (fun s => s.block_type)) = _
  rw [append_block_segments, List.map_append]
  rw [select_constNoise t c d hn h1 h2]
  rfl

theorem iterate_constNoise_map (c d : ℝ) (h1 : 0.3 ≤ |c|) (h2 : |c| < 0.6) (n : ℕ)
    (t : Track) (hn : t.noise = constNoise c d) :
    ((Track.genStep^[n] t).segments.map (fun s => s.block_type))
      = t.segments.map (fun s => s.block_type)
          ++ List.replicate n (.Turn (Real.pi * |c| + 0.3) (|c| * 20 + 10)) := by
  induction n with
  | zero => simp
  | succ k ih =>
      rw [Function.iterate_succ_apply']
      rw [genStep_constNoise_map _ c d (by rw [iterate_genStep_noise]; exact hn) h1 h2, ih]
      rw [List.replicate_succ', List.append_assoc]

theorem generate_constNoise_map (c d : ℝ) (h1 : 0.3 ≤ |c|) (h2 : |c| < 0.6)
    (initial_length : ℝ) :
    ((Track.generate (constNoise c d) initial_length).segments.map (fun s => s.block_type))
      = .Slope initial_length (-3)
          :: List.replicate 500 (.Turn (Real.pi * |c| + 0.3) (|c| * 20 + 10)) := by
  unfold Track.generate
  rw [iterate_constNoise_map c d h1 h2 500 _ rfl]
  rfl

/-- The turn accumulator as claim C5 defines it, as a ghost fold over the
piece sequence: Turn and BankedTurn add the absolute angle, Slope resets to
zero, other pieces leave it unchanged. -/
def turnAccumStep (acc : ℝ) (b : BlockType) : ℝ :=
  match b with
  | .Turn angle _ => acc + |angle|
  | .BankedTurn angle _ _ => acc + |angle|
  | .Slope _ _ => 0
  | _ => acc

def turnAccumClaim (bs : List BlockType) : ℝ := bs.foldl turnAccumStep 0

/-- Counterexample for claim C5: with the constant noise field of value 1/2
(legal for the spec noise contract), the first selected piece is a Turn of
angle pi/2 + 0.3, so after two segments the accumulator that C5 postulates
already exceeds pi/2, yet the next generated piece is again a Turn, not the
Slope that C5 says is then force-selected. -/
theorem c5_counterexample :
    Real.pi / 2 <
        turnAccumClaim
          (((Track.generate (constNoise (1 / 2) (1 / 2)) 8).segments.map
            (fun s => s.block_type)).take 2) ∧
      (((Track.generate (constNoise (1 / 2) (1 / 2)) 8).segments.map
          (fun s => s.block_type))[2]?.map BlockType.isSlope) = some false := by
  have habs : |(1 / 2 : ℝ)| = 1 / 2 := abs_of_pos (by norm_num)
  have h1 : (0.3 : ℝ) ≤ |(1 / 2 : ℝ)| := by rw [habs]; norm_num
  have h2 : |(1 / 2 : ℝ)| < 0.6 := by rw [habs]; norm_num
  have M := generate_constNoise_map (1 / 2) (1 / 2) h1 h2 8
  rw [M]
  have hπ := Real.pi_pos
  constructor
  · have htake :
        ((BlockType.Slope 8 (-3)
            :: List.replicate 500
              (BlockType.Turn (Real.pi * |(1 / 2 : ℝ)| + 0.3) (|(1 / 2 : ℝ)| * 20 + 10))).take 2)
          = [BlockType.Slope 8 (-3),
             BlockType.Turn (Real.pi * |(1 / 2 : ℝ)| + 0.3) (|(1 / 2 : ℝ)| * 20 + 10)] := rfl
    rw [htake]
    show Real.pi / 2 <
      turnAccumStep (turnAccumStep 0 (BlockType.Slope 8 (-3)))
        (BlockType.Turn (Real.pi * |(1 / 2 : ℝ)| + 0.3) (|(1 / 2 : ℝ)| * 20 + 10))
    show Real.pi / 2 < 0 + |Real.pi * |(1 / 2 : ℝ)| + 0.3|
    rw [habs, abs_of_pos (by nlinarith)]
    nlinarith
  · have hget :
        ((BlockType.Slope 8 (-3)
            :: List.replicate 500
              (BlockType.Turn (Real.pi * |(1 / 2 : ℝ)| + 0.3) (|(1 / 2 : ℝ)| * 20 + 10)))[2]?)
          = some (BlockType.Turn (Real.pi * |(1 / 2 : ℝ)| + 0.3) (|(1 / 2 : ℝ)| * 20 + 10)) := rfl
    rw [hget]
    rfl

end TrackCore

namespace TrackCore

/-- Every Turn segment carries an angle in [0.3, pi + 0.3] and a radius in [10, 30]. -/
def TurnParamsOk (t : Track) : Prop :=
  ∀ seg ∈ t.segments, ∀ a r : ℝ,
    seg.block_type = .Turn a r → 0.3 ≤ a ∧ a ≤ Real.pi + 0.3 ∧ 10 ≤ r ∧ r ≤ 30

theorem select_turn_params (t : Track) (hb : ∀ x y, |t.noise.get2 x y| ≤ 1) (a r : ℝ)
    (hsel : t.select_next_block = .Turn a r) :
    0.3 ≤ a ∧ a ≤ Real.pi + 0.3 ∧ 10 ≤ r ∧ r ≤ 30 := by
  by_cases h1 : |t.noise.get2 ((t.segments.length : ℝ) * 0.3) 0| < 0.3
  · rw [select_next_block_straight t h1] at hsel
    exact absurd hsel (by intro hcon; cases hcon)
  by_cases h2 : |t.noise.get2 ((t.segments.length : ℝ) * 0.3) 0| < 0.6
  · rw [select_next_block_turn t h1 h2] at hsel
    injection hsel with ha hr
    subst ha
    subst hr
    have hn1 : (0:ℝ) ≤
        |t.noise.get2 (t.current_end.position.x * 0.3) (t.current_end.position.y * 0.3)| :=
      abs_nonneg _
    have hn2 :
        |t.noise.get2 (t.current_end.position.x * 0.3) (t.current_end.position.y * 0.3)| ≤ 1 :=
      hb _ _
    have hm1 : (0:ℝ) ≤
        |t.noise.get2 (t.current_end.position.y * 0.3) (t.current_end.position.x * 0.3)| :=
      abs_nonneg _
    have hm2 :
        |t.noise.get2 (t.current_end.position.y * 0.3) (t.current_end.position.x * 0.3)| ≤ 1 :=
      hb _ _
    have hπ := Real.pi_pos
    refine ⟨by nlinarith, by nlinarith, by nlinarith, by nlinarith⟩
  · rw [select_next_block_slope t h1 h2] at hsel
    exact absurd hsel (by intro hcon; cases hcon)

theorem turnParamsOk_genStep (t : Track) (hb : ∀ x y, |t.noise.get2 x y| ≤ 1)
    (ht : TurnParamsOk t) : TurnParamsOk t.genStep := by
  intro seg hseg a r hblock
  unfold Track.genStep at hseg
  rw [append_block_segments] at hseg
  rcases List.mem_append.mp hseg with hmem | hmem
  · exact ht seg hmem a r hblock
  · rw [List.mem_singleton] at hmem
    subst hmem
    exact select_turn_params t hb a r hblock

theorem turnParamsOk_iterate (t : Track) (hb : ∀ x y, |t.noise.get2 x y| ≤ 1)
    (ht : TurnParamsOk t) (n : ℕ) : TurnParamsOk (Track.genStep^[n] t) := by
  induction n with
  | zero => simpa using ht
  | succ k ih =>
      rw [Function.iterate_succ_apply']
      refine turnParamsOk_genStep _ ?_ ih
      rw [iterate_genStep_noise]
      exact hb

/-- Claim C10: for every noise field honouring the Perlin contract (samples in
[-1, 1]; hence for every seed) and every initial_length, every Turn segment of
the generated track has angle = pi * r + 0.3 with r = |noise| in [0, 1] and
radius = r' * 20 + 10 with r' = |noise| in [0, 1]: so its angle lies in
[0.3, pi + 0.3] (strictly positive) and its radius in [10, 30]. -/
theorem c10_turn_params (noise : Noise) (hb : ∀ x y, |noise.get2 x y| ≤ 1)
    (initial_length : ℝ) (seg : TrackSegment)
    (hseg : seg ∈ (Track.generate noise initial_length).segments) (a r : ℝ)
    (hblock : seg.block_type = .Turn a r) :
    0.3 ≤ a ∧ a ≤ Real.pi + 0.3 ∧ 10 ≤ r ∧ r ≤ 30 := by
  have H : TurnParamsOk (Track.generate noise initial_length) := by
    unfold Track.generate
    apply turnParamsOk_iterate
    · exact hb
    · intro s hs a r hcon
      rw [append_block_segments] at hs
      rcases List.mem_append.mp hs with hmem | hmem
      · simp at hmem
      · rw [List.mem_singleton] at hmem
        subst hmem
        cases hcon
  exact H seg hseg a r hblock

/-- A Turn segment of the constant-half-noise generated track, for the C10 witness. -/
theorem generate_constHalf_turn_segment :
    ∃ seg ∈ (Track.generate (constNoise (1 / 2) (1 / 2)) 8).segments,
      seg.block_type = .Turn (Real.pi * |(1 / 2 : ℝ)| + 0.3) (|(1 / 2 : ℝ)| * 20 + 10) := by
  have habs : |(1 / 2 : ℝ)| = 1 / 2 := abs_of_pos (by norm_num)
  have h1 : (0.3 : ℝ) ≤ |(1 / 2 : ℝ)| := by rw [habs]; norm_num
  have h2 : |(1 / 2 : ℝ)| < 0.6 := by rw [habs]; norm_num
  have M := generate_constNoise_map (1 / 2) (1 / 2) h1 h2 8
  have hget :
      ((Track.generate (constNoise (1 / 2) (1 / 2)) 8).segments.map (fun s => s.block_type))[1]?
        = some (BlockType.Turn (Real.pi * |(1 / 2 : ℝ)| + 0.3) (|(1 / 2 : ℝ)| * 20 + 10)) := by
    rw [M]
    rfl
  rw [List.getElem?_map] at hget
  rcases hopt : (Track.generate (constNoise (1 / 2) (1 / 2)) 8).segments[1]? with _ | seg
  · rw [hopt] at hget
    cases hget
  · rw [hopt] at hget
    refine ⟨seg, List.getElem?_mem hopt, ?_⟩
    injection hget

/-- Witness for C10 at the constant-half noise field, which satisfies the
Perlin range contract, applied to the concrete Turn segment of that track. -/
theorem c10_turn_params_witness :
    (∀ x y, |(constNoise (1 / 2) (1 / 2)).get2 x y| ≤ 1) ∧
      (0.3 ≤ Real.pi * |(1 / 2 : ℝ)| + 0.3 ∧
        Real.pi * |(1 / 2 : ℝ)| + 0.3 ≤ Real.pi + 0.3 ∧
        10 ≤ |(1 / 2 : ℝ)| * 20 + 10 ∧ |(1 / 2 : ℝ)| * 20 + 10 ≤ 30) := by
  have hb : ∀ x y, |(constNoise (1 / 2) (1 / 2)).get2 x y| ≤ 1 := by
    intro x y
    show |(1 / 2 : ℝ)| ≤ 1
    rw [abs_of_pos (by norm_num)]
    norm_num
  obtain ⟨seg, hm, hblock⟩ := generate_constHalf_turn_segment
  exact ⟨hb, c10_turn_params (constNoise (1 / 2) (1 / 2)) hb 8 seg hm _ _ hblock⟩

end TrackCore

namespace TrackCore

theorem length_flatMap_const {β : Type} (n c : ℕ) (f : ℕ → List β)
    (hf : ∀ i, (f i).length = c) : ((List.range n).flatMap f).length = n * c := by
  rw [List.length_flatMap]
  have hmap : (List.range n).map (List.length ∘ f) = List.replicate n c := by
    rw [List.eq_replicate_iff]
    refine ⟨by simp, ?_⟩
    intro b hb
    rcases List.mem_map.mp hb with ⟨i, _, hi⟩
    rw [← hi]
    exact hf i
  rw [hmap, List.sum_replicate, smul_eq_mul]

theorem turnRingVerts_length (angle radius : ℝ) (K i : ℕ) :
    (turnRingVerts angle radius K i).length = 4 := rfl

theorem bankedRingVerts_length (angle radius bank_height : ℝ) (K i : ℕ) :
    (bankedRingVerts angle radius bank_height K i).length = 4 := rfl

theorem turnRingUvs_length (K i : ℕ) : (turnRingUvs K i).length = 4 := rfl

theorem turn_mesh_lengths (angle radius : ℝ) :
    (generate_turn_mesh angle radius).positions.length = (turnSegments angle + 1) * 4 ∧
      (generate_turn_mesh angle radius).normals.length = (turnSegments angle + 1) * 4 ∧
      (generate_turn_mesh angle radius).uvs.length = (turnSegments angle + 1) * 4 := by
  unfold generate_turn_mesh create_mesh_from_attributes
  refine ⟨?_, ?_, ?_⟩
  · exact length_flatMap_const _ 4 _ (turnRingVerts_length angle radius (turnSegments angle))
  · exact length_flatMap_const _ 4 _ (fun _ => rfl)
  · exact length_flatMap_const _ 4 _ (turnRingUvs_length (turnSegments angle))

theorem banked_mesh_lengths (angle radius bank_height : ℝ) :
    (generate_banked_turn_mesh angle radius bank_height).positions.length
        = (turnSegments angle + 1) * 4 ∧
      (generate_banked_turn_mesh angle radius bank_height).normals.length
        = (turnSegments angle + 1) * 4 ∧
      (generate_banked_turn_mesh angle radius bank_height).uvs.length
        = (turnSegments angle + 1) * 4 := by
  unfold generate_banked_turn_mesh create_mesh_from_attributes
  refine ⟨?_, ?_, ?_⟩
  · exact length_flatMap_const _ 4 _
      (bankedRingVerts_length angle radius bank_height (turnSegments angle))
  · exact length_flatMap_const _ 4 _ (fun _ => rfl)
  · exact length_flatMap_const _ 4 _ (turnRingUvs_length (turnSegments angle))

theorem turnQuadIndices_bound (K i j : ℕ) (hi : i < K) (hj : j ∈ turnQuadIndices i) :
    j < (K + 1) * 4 := by
  unfold turnQuadIndices at hj
  simp only [List.mem_cons, List.mem_singleton, List.not_mem_nil, or_false] at hj
  rcases hj with h | h | h | h | h | h | h | h | h | h | h | h | h | h | h | h | h | h <;>
    omega

theorem turn_mesh_indices_bound (angle radius : ℝ) (j : ℕ)
    (hj : j ∈ (generate_turn_mesh angle radius).indices) :
    j < (generate_turn_mesh angle radius).positions.length := by
  rw [(turn_mesh_lengths angle radius).1]
  have hj2 : j ∈ (List.range (turnSegments angle)).flatMap turnQuadIndices := hj
  rcases List.mem_flatMap.mp hj2 with ⟨i, hi, hmem⟩
  exact turnQuadIndices_bound (turnSegments angle) i j (List.mem_range.mp hi) hmem

theorem banked_mesh_indices_bound (angle radius bank_height : ℝ) (j : ℕ)
    (hj : j ∈ (generate_banked_turn_mesh angle radius bank_height).indices) :
    j < (generate_banked_turn_mesh angle radius bank_height).positions.length := by
  rw [(banked_mesh_lengths angle radius bank_height).1]
  have hj2 : j ∈ (List.range (turnSegments angle)).flatMap turnQuadIndices := hj
  rcases List.mem_flatMap.mp hj2 with ⟨i, hi, hmem⟩
  exact turnQuadIndices_bound (turnSegments angle) i j (List.mem_range.mp hi) hmem

end TrackCore

namespace TrackCore

theorem bumpyGridPositions_length (length width : ℝ) (rx rz : ℕ) (perturbations : ℝ)
    (noise : Noise) (offset : Vec3) :
    (bumpyGridPositions length width rx rz perturbations noise offset).length = rz * rx := by
  unfold bumpyGridPositions
  refine length_flatMap_const rz rx _ (fun i => ?_)
  rw [List.length_map, List.length_range]

theorem bumpyGridUvs_length (rx rz : ℕ) : (bumpyGridUvs rx rz).length = rz * rx := by
  unfold bumpyGridUvs
  refine length_flatMap_const rz rx _ (fun i => ?_)
  rw [List.length_map, List.length_range]

theorem smoothNormals_length (positions : List Vec3) (indices : List ℕ) :
    (smoothNormals positions indices).length = positions.length := by
  unfold smoothNormals
  rw [List.length_map, List.length_range]

theorem bumpyQuadIndices_bound (rx rz z x j : ℕ) (hrx : 2 ≤ rx) (hrz : 2 ≤ rz)
    (hz : z < rz - 1) (hx : x < rx - 1) (hj : j ∈ bumpyQuadIndices rx z x) :
    j < rz * rx := by
  have h1 : (z + 1) * rx ≤ (rz - 1) * rx := Nat.mul_le_mul_right rx (by omega)
  have h2 : z * rx ≤ (z + 1) * rx := Nat.mul_le_mul_right rx (by omega)
  have h3 : (rz - 1) * rx + rx = rz * rx := by
    have : rz - 1 + 1 = rz := by omega
    calc (rz - 1) * rx + rx = (rz - 1 + 1) * rx := by ring
    _ = rz * rx := by rw [this]
  unfold bumpyQuadIndices at hj
  simp only [List.mem_cons, List.mem_singleton, List.not_mem_nil, or_false] at hj
  rcases hj with h | h | h | h | h | h <;> omega

theorem bumpyGridIndices_bound (rx rz j : ℕ) (hrx : 2 ≤ rx) (hrz : 2 ≤ rz)
    (hj : j ∈ bumpyGridIndices rx rz) : j < rz * rx := by
  unfold bumpyGridIndices at hj
  rcases List.mem_flatMap.mp hj with ⟨z, hz, hj2⟩
  rcases List.mem_flatMap.mp hj2 with ⟨x, hx, hj3⟩
  exact bumpyQuadIndices_bound rx rz z x j hrx hrz (List.mem_range.mp hz)
    (List.mem_range.mp hx) hj3

theorem bumpy_mesh_ok (length width : ℝ) (rx rz : ℕ) (perturbations : ℝ)
    (noise : Noise) (offset : Vec3) (m : Mesh)
    (h : generate_bumpy_mesh length width rx rz perturbations noise offset = some m) :
    (∀ j ∈ m.indices, j < m.positions.length) ∧
      m.normals.length = m.positions.length ∧ m.uvs.length = m.positions.length := by
  unfold generate_bumpy_mesh at h
  by_cases hg : 2 ≤ rx ∧ 2 ≤ rz
  swap
  · rw [if_neg hg] at h
    cases h
  rw [if_pos hg] at h
  obtain ⟨hrx, hrz⟩ := hg
  injection h with h
  subst h
  simp only []
  have hplen :
      (bumpyGridPositions length width rx rz perturbations noise offset ++
        [⟨-(width / 2), 3, 0⟩, ⟨width / 2, 3, 0⟩, ⟨width / 2, 3, length⟩,
         ⟨-(width / 2), 3, length⟩] : List Vec3).length = rz * rx + 4 := by
    rw [List.length_append, bumpyGridPositions_length]
    rfl
  refine ⟨?_, ?_, ?_⟩
  · intro j hj
    rw [hplen] at hj ⊢
    rcases List.mem_append.mp hj with hmem | hmem
    · have := bumpyGridIndices_bound rx rz j hrx hrz hmem
      omega
    · have e1 : rx * (rz - 1) ≤ rx * rz := Nat.mul_le_mul_left rx (by omega)
      have e2 : rx ≤ rx * rz := Nat.le_mul_of_pos_right rx (by omega)
      have e3 : rx * rz = rz * rx := Nat.mul_comm rx rz
      simp only [List.mem_cons, List.mem_singleton, List.not_mem_nil, or_false] at hmem
      rcases hmem with h | h | h | h | h | h | h | h | h | h | h | h <;> omega
  · rw [smoothNormals_length]
  · rw [hplen, List.length_append, bumpyGridUvs_length]
    rfl

end TrackCore

namespace TrackCore

theorem straight_mesh_ok (length : ℝ) :
    (∀ j ∈ (generate_straight_mesh length).indices,
        j < (generate_straight_mesh length).positions.length) ∧
      (generate_straight_mesh length).normals.length
        = (generate_straight_mesh length).positions.length ∧
      (generate_straight_mesh length).uvs.length
        = (generate_straight_mesh length).positions.length := by
  refine ⟨?_, rfl, rfl⟩
  intro j hj
  have hj2 : j ∈ ([0, 2, 1, 0, 3, 2, 0, 4, 7, 0, 7, 3, 1, 6, 5, 1, 2, 6] : List ℕ) := hj
  simp only [List.mem_cons, List.not_mem_nil, or_false] at hj2
  show j < 8
  rcases hj2 with h | h | h | h | h | h | h | h | h | h | h | h | h | h | h | h | h | h <;>
    omega

theorem slope_mesh_ok (length height_change : ℝ) :
    (∀ j ∈ (generate_slope_mesh length height_change).indices,
        j < (generate_slope_mesh length height_change).positions.length) ∧
      (generate_slope_mesh length height_change).normals.length
        = (generate_slope_mesh length height_change).positions.length ∧
      (generate_slope_mesh length height_change).uvs.length
        = (generate_slope_mesh length height_change).positions.length := by
  refine ⟨?_, rfl, rfl⟩
  intro j hj
  have hj2 : j ∈ ([0, 2, 1, 0, 3, 2, 0, 4, 7, 0, 7, 3, 1, 6, 5, 1, 2, 6] : List ℕ) := hj
  simp only [List.mem_cons, List.not_mem_nil, or_false] at hj2
  show j < 8
  rcases hj2 with h | h | h | h | h | h | h | h | h | h | h | h | h | h | h | h | h | h <;>
    omega

/-- Claim C3: for every piece type and all parameter values, the mesh that
generate_mesh_for_block produces (whenever it produces one; the Bumpy arm is
guarded by the grid-resolution asserts, which its fixed 20 x 20 call always
satisfies) has every triangle index strictly below the vertex count, and its
position, normal and UV attribute arrays all have equal length. -/
theorem c3_mesh_contract (block : BlockType) (noise : Noise) (offset : Vec3) (m : Mesh)
    (h : generate_mesh_for_block block noise offset = some m) :
    (∀ j ∈ m.indices, j < m.positions.length) ∧
      m.normals.length = m.positions.length ∧ m.uvs.length = m.positions.length := by
  cases block with
  | Straight length =>
      injection h with h
      subst h
      exact straight_mesh_ok length
  | Slope length height_change =>
      injection h with h
      subst h
      exact slope_mesh_ok length height_change
  | Turn angle radius =>
      injection h with h
      subst h
      refine ⟨turn_mesh_indices_bound angle radius, ?_, ?_⟩
      · rw [(turn_mesh_lengths angle radius).2.1, (turn_mesh_lengths angle radius).1]
      · rw [(turn_mesh_lengths angle radius).2.2, (turn_mesh_lengths angle radius).1]
  | BankedTurn angle radius bank_height =>
      injection h with h
      subst h
      refine ⟨banked_mesh_indices_bound angle radius bank_height, ?_, ?_⟩
      · rw [(banked_mesh_lengths angle radius bank_height).2.1,
          (banked_mesh_lengths angle radius bank_height).1]
      · rw [(banked_mesh_lengths angle radius bank_height).2.2,
          (banked_mesh_lengths angle radius bank_height).1]
  | Bumpy length pertubation =>
      exact bumpy_mesh_ok length TRACK_WIDTH 20 20 pertubation noise offset m h

/-- Witness for C3 at the concrete block Straight 10 with the noiseZero field. -/
theorem c3_mesh_contract_witness :
    generate_mesh_for_block (.Straight 10) noiseZero Vec3.zero
        = some (generate_straight_mesh 10) ∧
      ((∀ j ∈ (generate_straight_mesh 10).indices,
          j < (generate_straight_mesh 10).positions.length) ∧
        (generate_straight_mesh 10).normals.length
          = (generate_straight_mesh 10).positions.length ∧
        (generate_straight_mesh 10).uvs.length
          = (generate_straight_mesh 10).positions.length) :=
  ⟨rfl, c3_mesh_contract (.Straight 10) noiseZero Vec3.zero (generate_straight_mesh 10) rfl⟩

end TrackCore

namespace TrackCore

/-- Claim C7 as amended: the geometry builder performs no parameter
validation at all and defines no InvalidParameter error. For every block, any
parameter values included (negative lengths, zero or negative radii),
generate_mesh_for_block succeeds and returns a mesh; the only guard anywhere
is the pair of panicking asserts in generate_bumpy_mesh demanding a grid
resolution of at least 2 x 2, which the fixed 20 x 20 call always satisfies
and which a sub-2 resolution (never reachable from generate_mesh_for_block)
would trip. -/
theorem c7_amended_no_validation :
    (∀ (block : BlockType) (noise : Noise) (offset : Vec3),
        (generate_mesh_for_block block noise offset).isSome = true) ∧
      (∀ (length perturbations : ℝ) (noise : Noise) (offset : Vec3),
        generate_bumpy_mesh length TRACK_WIDTH 1 20 perturbations noise offset = none) := by
  constructor
  · intro block noise offset
    cases block with
    | Straight length => rfl
    | Turn angle radius => rfl
    | Slope length height_change => rfl
    | BankedTurn angle radius bank_height => rfl
    | Bumpy length pertubation =>
        show (generate_bumpy_mesh length TRACK_WIDTH 20 20 pertubation noise offset).isSome = true
        unfold generate_bumpy_mesh
        rw [if_pos (by omega)]
        rfl
  · intro length perturbations noise offset
    unfold generate_bumpy_mesh
    rw [if_neg (by omega)]

/-- Counterexample for claim C7: malformed parameters are not rejected. A
Straight block of negative length -5 and a Turn block of angle 0 and negative
radius -2 both produce a mesh (no error of any kind), with a full set of
vertices; no InvalidParameter failure path exists in the builder. -/
theorem c7_counterexample :
    generate_mesh_for_block (.Straight (-5)) noiseZero Vec3.zero
        = some (generate_straight_mesh (-5)) ∧
      (generate_straight_mesh (-5)).positions.length = 8 ∧
      generate_mesh_for_block (.Turn 0 (-2)) noiseZero Vec3.zero
        = some (generate_turn_mesh 0 (-2)) ∧
      0 < (generate_turn_mesh 0 (-2)).positions.length := by
  refine ⟨rfl, rfl, rfl, ?_⟩
  rw [(turn_mesh_lengths 0 (-2)).1]
  have := Nat.le_max_right (Int.toNat ⌈|(0:ℝ)| * (SEGMENTS_PER_RADIAN : ℝ)⌉) 1
  unfold turnSegments
  omega

end TrackCore

namespace TrackCore

theorem turnSegments_zero : turnSegments 0 = 1 := by
  unfold turnSegments SEGMENTS_PER_RADIAN
  rw [abs_zero, zero_mul, Int.ceil_zero, Int.toNat_zero]
  rfl

theorem turnRingVerts_degenerate (i : ℕ) :
    turnRingVerts 0 0 1 i = [⟨-5, 0, 0⟩, ⟨-5, 3, 0⟩, ⟨5, 0, 0⟩, ⟨5, 3, 0⟩] := by
  unfold turnRingVerts rotate_point_around TRACK_WIDTH
  norm_num [Vec3.mk.injEq]

/-- Claim C8 evaluated on the code: the mesh generate_turn_mesh(0, 0) synthesizes
for the degenerate Turn of angle 0 and radius 0 has its eight vertices at
x = -5 or 5 (half the track width of 10) and y up to 3 (the wall top), nowhere
near the test bounding box x, z in [-1, 1] and y in [-0.5, 0.5] that the
repository test test_mesh_vertices_in_bounding_box asserts: that test fails on
the very first vertex. -/
theorem c8_degenerate_turn_eval :
    (generate_turn_mesh 0 0).positions
        = [⟨-5, 0, 0⟩, ⟨-5, 3, 0⟩, ⟨5, 0, 0⟩, ⟨5, 3, 0⟩,
           ⟨-5, 0, 0⟩, ⟨-5, 3, 0⟩, ⟨5, 0, 0⟩, ⟨5, 3, 0⟩] ∧
      ((-5 : ℝ) < -1) ∧ ((0.5 : ℝ) < 3) := by
  refine ⟨?_, by norm_num, by norm_num⟩
  show ((List.range (turnSegments 0 + 1)).flatMap (turnRingVerts 0 0 (turnSegments 0))) = _
  rw [turnSegments_zero]
  rw [show List.range 2 = [0, 1] from rfl]
  rw [List.flatMap_cons, List.flatMap_cons, List.flatMap_nil]
  rw [turnRingVerts_degenerate 0, turnRingVerts_degenerate 1]
  rfl

end TrackCore
